import Mathlib

/- Verification development for the redux core: function composition
   (src/unnamed/part_000), reducer composition (src/src/combineReducers.js),
   the store dispatch/subscribe protocol (src/unnamed/part_002) and
   middleware application (src/src/applyMiddleware.js).  JS values are
   modelled by type parameters, JS `undefined` by `Option.none`, thrown
   exceptions by `Except`/explicit result constructors, and JS array
   aliasing (needed for the copy-on-write listener registry) by an explicit
   heap of lists addressed by numeric references. -/

namespace Redux

/-- Actions are plain records with a type field.  `isPlain` models the
result of the lodash isPlainObject check performed by dispatch, and
`type? = none` models an action whose type property is undefined. -/
structure Action where
  isPlain : Bool
  type? : Option String
deriving DecidableEq

/-- Errors thrown by the modelled code.  Each constructor corresponds to one
throw site in the source; `userError` stands for arbitrary exceptions raised
by user-supplied reducers or listeners. -/
inductive JsError where
  | notPlainAction
  | undefinedActionType
  | reducersMayNotDispatch
  | shapeInitUndefined (key : String)
  | shapeProbeUndefined (key : String)
  | undefinedReducerResult (key : String) (actionType : Option String)
  | userError (code : Nat)
deriving DecidableEq

/-! ### Function composition (src/unnamed/part_000) -/

/-- A JS function value: it receives an argument list and returns one value
(missing arguments read as undefined, which the instantiating type carries). -/
def JsFun (α : Type) : Type := List α → α

/-- The reduce step of compose: `(a, b) => (...args) => a(b(...args))`. -/
def composeStep {α : Type} (a b : JsFun α) : JsFun α :=
  fun args => a [b args]

/-- Translation of compose from src/unnamed/part_000 lines 24-36:
zero functions give the one-argument identity `arg => arg`, one function is
returned unchanged, otherwise the array is reduced with `composeStep`. -/
def compose {α : Type} [Inhabited α] (funcs : List (JsFun α)) : JsFun α :=
  match funcs with
  | [] => fun args => args.headD default
  | [f] => f
  | f :: g :: rest => (g :: rest).foldl composeStep f

/-- Right-to-left composition as the spec words it: the rightmost function
receives the original argument list, every function to its left receives
exactly one argument. -/
def composeSpec {α : Type} [Inhabited α] : List (JsFun α) → JsFun α
  | [] => fun args => args.headD default
  | [f] => f
  | f :: g :: rest => fun args => f [composeSpec (g :: rest) args]

/-! ### Reducer composition (src/src/combineReducers.js) -/

/-- A state object: a JS plain object modelled as an insertion-ordered
association list. -/
abbrev Obj (V : Type) : Type := List (String × V)

/-- JS property access state[key]; none models both a missing key and an
explicitly undefined value. -/
def objGet {V : Type} : Obj V → String → Option V
  | [], _ => none
  | kv :: rest, key => if kv.1 = key then some kv.2 else objGet rest key

/-- A member reducer: receives a possibly-undefined sub-state and an action,
and may return undefined (the absent sentinel, modelled by none). -/
def SubReducer (V : Type) : Type := Option V → Action → Option V

/-- A value of the reducers mapping handed to combineReducers: either a
function or some non-function value (dropped by the filtering pass). -/
inductive RVal (V : Type) where
  | fn (f : SubReducer V)
  | other

/-- The filtering loop of combineReducers lines 124-144: only function-valued
entries are retained in finalReducers, in mapping order. -/
def finalize {V : Type} (reducers : List (String × RVal V)) :
    List (String × SubReducer V) :=
  reducers.filterMap fun kv =>
    match kv.2 with
    | .fn f => some (kv.1, f)
    | .other => none

/-- The reserved INIT action (ActionTypes.INIT), dispatched with an absent
state during shape validation. -/
def initAction : Action := { isPlain := true, type? := some "@@redux/INIT" }

/-- An action carrying the given probe type. -/
def probeAction (t : String) : Action := { isPlain := true, type? := some t }

/-- The action name computed by getUndefinedStateErrorMessage lines 7-8:
an undefined type and the empty string are both falsy in JS and yield
the text an action; any other type is quoted. -/
def actionNameOf : Option String → String
  | some t => if t = "" then "an action" else "\"" ++ t ++ "\""
  | none => "an action"

/-- Tail of the getUndefinedStateErrorMessage text. -/
def undefinedMsgTail : String :=
  " returned undefined. To ignore an action, you must explicitly return " ++
    "the previous state. If you want this reducer to hold no value, " ++
    "you can return null instead of undefined."

/-- Message built by getUndefinedStateErrorMessage (lines 6-15). -/
def getUndefinedStateErrorMessage (key : String) (t? : Option String) : String :=
  "Given action " ++ actionNameOf t? ++ ", reducer " ++
    ("\"" ++ key ++ "\"") ++ undefinedMsgTail

/-- Tail of the initialization shape-violation message (lines 75-81). -/
def shapeInitMsgTail : String :=
  " returned undefined during initialization. " ++
    "If the state passed to the reducer is undefined, you must " ++
    "explicitly return the initial state. The initial state may " ++
    "not be undefined. If you don\x27t want to set a value for this " ++
    "reducer, you can use null instead of undefined."

/-- Tail of the probe shape-violation message (lines 90-97). -/
def shapeProbeMsgTail : String :=
  " returned undefined when probed with a random type. " ++
    "Don\x27t try to handle @@redux/INIT or other actions in \"redux/*\" " ++
    "namespace. They are considered private. Instead, you must return the " ++
    "current state for any unknown actions, unless it is undefined, " ++
    "in which case you must return the initial state, regardless of the " ++
    "action type. The initial state may not be undefined, but can be null."

/-- Message text attached to each modelled throw site. -/
def errorMessage : JsError → String
  | .notPlainAction =>
      "Actions must be plain objects. Use custom middleware for async actions."
  | .undefinedActionType =>
      "Actions may not have an undefined \"type\" property. " ++
        "Have you misspelled a constant?"
  | .reducersMayNotDispatch => "Reducers may not dispatch actions."
  | .shapeInitUndefined key =>
      "Reducer " ++ ("\"" ++ key ++ "\"") ++ shapeInitMsgTail
  | .shapeProbeUndefined key =>
      "Reducer " ++ ("\"" ++ key ++ "\"") ++ shapeProbeMsgTail
  | .undefinedReducerResult key t? => getUndefinedStateErrorMessage key t?
  | .userError code => "User exception " ++ toString code

/-- Translation of assertReducerShape (lines 66-100): scan the retained
reducers in order; invoke each with undefined state and the INIT action, then
with undefined state and the randomly generated probe type (the probe
parameter maps each key to the probe type generated for it); the first
undefined result is thrown, carrying the offending key — combineReducers
catches it below, so here the throw is the returned some. -/
def assertReducerShape {V : Type} (probe : String → String) :
    List (String × SubReducer V) → Option JsError
  | [] => none
  | (key, red) :: rest =>
    match red none initAction with
    | none => some (.shapeInitUndefined key)
    | some _ =>
      match red none (probeAction (probe key)) with
      | none => some (.shapeProbeUndefined key)
      | some _ => assertReducerShape probe rest

/-- The per-dispatch loop of combination (lines 176-199): walk the retained
reducers in order, computing each next sub-state from the previous sub-state
state[key]; an undefined result throws immediately with the
getUndefinedStateErrorMessage data; otherwise accumulate the new record and
the hasChanged flag (nextStateForKey !== previousStateForKey). -/
def combineLoop {V : Type} [DecidableEq V] :
    List (String × SubReducer V) → Obj V → Action → Except JsError (Obj V × Bool)
  | [], _, _ => .ok ([], false)
  | (key, red) :: rest, state, a =>
    match red (objGet state key) a with
    | none => .error (.undefinedReducerResult key a.type?)
    | some nxt =>
      match combineLoop rest state a with
      | .error e => .error e
      | .ok (ns, changed) =>
          .ok ((key, nxt) :: ns, changed || decide (some nxt ≠ objGet state key))

/-- Translation of the returned combination function (lines 161-201):
re-raise a captured shape assertion error on every invocation; default the
state parameter to the empty object; run the loop; return the freshly built
record when something changed and the original state object otherwise. -/
def combination {V : Type} [DecidableEq V] (shapeErr : Option JsError)
    (frs : List (String × SubReducer V)) (state? : Option (Obj V)) (a : Action) :
    Except JsError (Obj V) :=
  match shapeErr with
  | some e => .error e
  | none =>
    let state := state?.getD []
    match combineLoop frs state a with
    | .error e => .error e
    | .ok (ns, changed) => .ok (if changed then ns else state)

/-- Translation of combineReducers (lines 123-202): filter the mapping to its
function-valued entries, run the shape validation once at composition time,
capturing rather than propagating its error (the try/catch of lines 153-158),
and return the combination closure. -/
def combineReducers {V : Type} [DecidableEq V] (probe : String → String)
    (reducers : List (String × RVal V)) :
    Option (Obj V) → Action → Except JsError (Obj V) :=
  combination (assertReducerShape probe (finalize reducers)) (finalize reducers)

/-- The record freshly built by the combination loop: every retained name
mapped to its new sub-state. -/
def nextStateOf {V : Type} [Inhabited V] (frs : List (String × SubReducer V))
    (state : Obj V) (a : Action) : Obj V :=
  frs.map fun kr => (kr.1, (kr.2 (objGet state kr.1) a).getD default)

/-- The hasChanged flag computed by the combination loop. -/
def anyChanged {V : Type} [DecidableEq V] (frs : List (String × SubReducer V))
    (state : Obj V) (a : Action) : Bool :=
  frs.any fun kr => decide (kr.2 (objGet state kr.1) a ≠ objGet state kr.1)

/-! ### The store (src/unnamed/part_002) -/

/-- A reducer as installed in a store: it may throw. -/
def Reducer (S : Type) : Type := S → Action → Except JsError S

/-- Mutable state of one store: the state cell, the two listener-registry
references (indices into a heap of JS arrays, so that the aliasing behaviour
of nextListeners === currentListeners is modelled exactly), the heap itself,
and the dispatch guard isDispatching. -/
structure StoreSt (S : Type) where
  currentState : S
  currentListeners : Nat
  nextListeners : Nat
  heap : List (List Nat)
  isDispatching : Bool
deriving DecidableEq

/-- The listener array a heap reference designates. -/
def arrAt {S : Type} (st : StoreSt S) (r : Nat) : List Nat :=
  st.heap.getD r []

/-- Both registry references are live heap indices. -/
def WFStore {S : Type} (st : StoreSt S) : Prop :=
  st.currentListeners < st.heap.length ∧ st.nextListeners < st.heap.length

/-- What a listener body may do, in the order written: subscribe a new
listener (by id), run the unsubscribe closure of a live subscription
(removing the first occurrence of that listener id from next, as
indexOf/splice do), or throw.  What a listener observes through the store
closure is recorded by the notification loop itself. -/
inductive LCmd where
  | subscribeC (j : Nat)
  | unsubscribeC (j : Nat)
  | throwC (e : JsError)
deriving DecidableEq

/-- The pure effect of a listener body on a listener array, stopping at a
throw (the remaining statements do not run). -/
def regEffect : List LCmd → List Nat → List Nat
  | [], l => l
  | .throwC _ :: _, l => l
  | .subscribeC j :: cs, l => regEffect cs (l ++ [j])
  | .unsubscribeC j :: cs, l => regEffect cs (l.erase j)

/-- The first exception a listener body throws, if any. -/
def firstThrow : List LCmd → Option JsError
  | [] => none
  | .throwC e :: _ => some e
  | .subscribeC _ :: cs => firstThrow cs
  | .unsubscribeC _ :: cs => firstThrow cs

/-- The accumulated registry after the listed listeners ran, each applying
its body's registry effect in turn. -/
def foldRegs (env : Nat → List LCmd) (ids : List Nat) (start : List Nat) : List Nat :=
  ids.foldl (fun acc id => regEffect (env id) acc) start

/-- Translation of ensureCanMutateNextListeners (part_002 lines 91-95): when
next and current alias the same array, next becomes a fresh copy — a fresh
heap reference holding the same elements. -/
def ensureCanMutateNextListeners {S : Type} (st : StoreSt S) : StoreSt S :=
  if st.nextListeners = st.currentListeners then
    { st with nextListeners := st.heap.length,
              heap := st.heap ++ [arrAt st st.currentListeners] }
  else st

/-- In-place mutation of the array a heap reference designates. -/
def heapWrite {S : Type} (st : StoreSt S) (r : Nat) (l : List Nat) : StoreSt S :=
  { st with heap := st.heap.set r l }

/-- Effect of subscribe (lines 135-144) registering listener j: ensure next
is mutable, then push. -/
def subscribeEff {S : Type} (st : StoreSt S) (j : Nat) : StoreSt S :=
  let st1 := ensureCanMutateNextListeners st
  heapWrite st1 st1.nextListeners (arrAt st1 st1.nextListeners ++ [j])

/-- Effect of the unsubscribe closure (lines 147-157) for listener j: ensure
next is mutable, then splice out the first occurrence found by indexOf. -/
def unsubscribeEff {S : Type} (st : StoreSt S) (j : Nat) : StoreSt S :=
  let st1 := ensureCanMutateNextListeners st
  heapWrite st1 st1.nextListeners ((arrAt st1 st1.nextListeners).erase j)

/-- Run one listener body: apply its commands in order, stopping at (and
reporting) the first throw; registry mutations made before the throw persist. -/
def runCmds {S : Type} : StoreSt S → List LCmd → StoreSt S × Option JsError
  | st, [] => (st, none)
  | st, .throwC e :: _ => (st, some e)
  | st, .subscribeC j :: cs => runCmds (subscribeEff st j) cs
  | st, .unsubscribeC j :: cs => runCmds (unsubscribeEff st j) cs

/-- Outcome of the notification loop. -/
inductive NotifyRes (S : Type) where
  | done (st : StoreSt S) (tr : List (Nat × S × Bool))
  | failed (e : JsError) (st : StoreSt S) (tr : List (Nat × S × Bool))
  | fuelOut
deriving DecidableEq

/-- The trace a notification loop produced so far. -/
def NotifyRes.trace {S : Type} : NotifyRes S → List (Nat × S × Bool)
  | .done _ tr => tr
  | .failed _ _ tr => tr
  | .fuelOut => []

/-- The notification loop of dispatch (lines 219-223):
for (let i = 0; i < listeners.length; i++) listeners[i](), where the local
listeners aliases the array referenced by r and is re-read on every
iteration, so mutating that array in place would perturb the loop — the
copy-on-write discipline is what prevents that, and it is proved below, not
assumed.  The trace records, per invocation, the listener id and the state
and guard value it observes through the store closure.  Fuel bounds the
iteration count; the lemmas below show the fuel chosen by dispatch never
runs out. -/
def notifyGo {S : Type} (env : Nat → List LCmd) (r : Nat) :
    Nat → Nat → StoreSt S → List (Nat × S × Bool) → NotifyRes S
  | 0, i, st, tr => if i < (arrAt st r).length then .fuelOut else .done st tr
  | fuel+1, i, st, tr =>
    if i < (arrAt st r).length then
      let id := (arrAt st r).getD i 0
      let tr1 := tr ++ [(id, st.currentState, st.isDispatching)]
      let out := runCmds st (env id)
      match out.2 with
      | some e => .failed e out.1 tr1
      | none => notifyGo env r fuel (i+1) out.1 tr1
    else .done st tr

/-- The store as the transition function sees it (line 212: isDispatching
has just been set; the state cell still holds the pre-transition state). -/
def storeDuringReducer {S : Type} (st : StoreSt S) : StoreSt S :=
  { st with isDispatching := true }

/-- The store as the notification phase starts (lines 213-219: the state
cell holds the transition function's result, the finally clause has released
the guard, and currentListeners has been assigned nextListeners). -/
def postReducerStore {S : Type} (st : StoreSt S) (ns : S) : StoreSt S :=
  { st with currentState := ns, isDispatching := false,
            currentListeners := st.nextListeners }

/-- Result of one dispatch call: rejected covers the three validation throws
before the transition function runs (lines 189-207, store untouched); threw
covers an exception from the transition function (empty trace) or from a
listener (trace of the invocations made before and including the throwing
one); ok is normal completion, returning the action (line 226). -/
inductive DResult (S : Type) where
  | rejected (e : JsError) (st : StoreSt S)
  | threw (e : JsError) (st : StoreSt S) (tr : List (Nat × S × Bool))
  | ok (st : StoreSt S) (tr : List (Nat × S × Bool)) (ret : Action)
  | fuelOut
deriving DecidableEq

/-- The trace of listener invocations a dispatch performed. -/
def DResult.trace {S : Type} : DResult S → List (Nat × S × Bool)
  | .rejected _ _ => []
  | .threw _ _ tr => tr
  | .ok _ tr _ => tr
  | .fuelOut => []

/-- Whether a dispatch completed normally. -/
def DResult.isOk {S : Type} : DResult S → Bool
  | .ok _ _ _ => true
  | _ => false

/-- The notification phase of dispatch (lines 218-226) starting from the
post-reducer store. -/
def notifyPhase {S : Type} (env : Nat → List LCmd) (st2 : StoreSt S)
    (a : Action) : DResult S :=
  match notifyGo env st2.currentListeners
      ((arrAt st2 st2.currentListeners).length) 0 st2 [] with
  | .fuelOut => .fuelOut
  | .failed e st' tr => .threw e st' tr
  | .done st' tr => .ok st' tr a

/-- Translation of dispatch (lines 187-227): reject a non-plain action, an
undefined action type, and a reentrant call, in that order; run the
transition function with the guard set (the try of line 211), releasing the
guard on both exit paths (finally) — on an exception the state cell is
untouched; on normal return assign the state cell, snapshot the registry
(currentListeners = nextListeners) and notify. -/
def dispatch {S : Type} (red : Reducer S) (env : Nat → List LCmd)
    (st : StoreSt S) (a : Action) : DResult S :=
  if a.isPlain = false then .rejected .notPlainAction st
  else if a.type? = none then .rejected .undefinedActionType st
  else if st.isDispatching = true then .rejected .reducersMayNotDispatch st
  else
    match red (storeDuringReducer st).currentState a with
    | .error e => .threw e { st with isDispatching := false } []
    | .ok ns => notifyPhase env (postReducerStore st ns) a

/-- Invariant carried through the notification pass: r is the snapshot
reference currentListeners holds, its array content L0 is the snapshot taken
at line 219, the state cell holds s, the guard is released, and the array
designated by nextListeners holds N. -/
structure NInv {S : Type} (r : Nat) (L0 : List Nat) (s : S) (N : List Nat)
    (st : StoreSt S) : Prop where
  cur : st.currentListeners = r
  snap : arrAt st r = L0
  wfc : st.currentListeners < st.heap.length
  wfn : st.nextListeners < st.heap.length
  cs : st.currentState = s
  gu : st.isDispatching = false
  reg : arrAt st st.nextListeners = N

/-! ### Middleware application (src/src/applyMiddleware.js) -/

/-- A middleware, as far as its construction phase is modelled: the actions
it dispatches synchronously through the api while being constructed
(line 49, middleware(middlewareAPI)).  The api dispatch
(action) => dispatch(action) reads the mutable local dispatch, which at
construction time still holds store.dispatch (line 40) — the composed chain
replaces it only afterwards (line 51). -/
structure MW where
  constructDispatches : List Action

/-- Run the construction-time dispatches of one middleware: each is
processed by the base store dispatch, threading the store state; a failure
aborts the construction (the exception propagates out of applyMiddleware)
with the results produced so far. -/
def runConstructionActs {S : Type} (red : Reducer S) (env : Nat → List LCmd) :
    StoreSt S → List Action → StoreSt S × List (DResult S)
  | st, [] => (st, [])
  | st, a :: rest =>
    match dispatch red env st a with
    | .ok st' tr ra =>
      let out := runConstructionActs red env st' rest
      (out.1, .ok st' tr ra :: out.2)
    | .rejected e stx => (stx, [.rejected e stx])
    | .threw e stx tr => (stx, [.threw e stx tr])
    | .fuelOut => (st, [.fuelOut])

/-- The construction phase of applyMiddleware (lines 36-49) over a
middleware list: middlewares.map invokes each middleware once with the api;
any dispatch a middleware performs during its construction is processed by
the base store dispatch, because the mutable reference cell the api forwards
to is at that moment bound to store.dispatch. -/
def applyMiddlewareConstruct {S : Type} (red : Reducer S)
    (env : Nat → List LCmd) : StoreSt S → List MW → StoreSt S × List (DResult S)
  | st, [] => (st, [])
  | st, m :: rest =>
    let out := runConstructionActs red env st m.constructDispatches
    if out.2.all DResult.isOk then
      let out2 := applyMiddlewareConstruct red env out.1 rest
      (out2.1, out.2 ++ out2.2)
    else out

/-! ### Concrete instances used by witnesses -/

/-- A deterministic counting reducer for the store witnesses. -/
def stepRed : Reducer Nat := fun s a =>
  .ok (if a.type? = some "INC" then s + 1 else s)

/-- A reducer that always throws. -/
def boomRed : Reducer Nat := fun _ _ => .error (.userError 3)

/-- A concrete idle store with two registered listeners, 0 and 1, whose
registry references alias the same array. -/
def store0 : StoreSt Nat :=
  { currentState := 5, currentListeners := 0, nextListeners := 0,
    heap := [[0, 1]], isDispatching := false }

/-- A concrete idle store with no listeners. -/
def storeEmpty : StoreSt Nat :=
  { currentState := 0, currentListeners := 0, nextListeners := 0,
    heap := [[]], isDispatching := false }

/-- Listener environment: listener 0 subscribes listener 2, listener 1
unsubscribes listener 0, all others do nothing. -/
def env0 : Nat → List LCmd := fun id =>
  if id = 0 then [.subscribeC 2] else if id = 1 then [.unsubscribeC 0] else []

/-- Listener environment: listener 1 throws, all others do nothing. -/
def env1 : Nat → List LCmd := fun id =>
  if id = 1 then [.throwC (.userError 7)] else []

/-- Listener environment where every listener does nothing. -/
def envNone : Nat → List LCmd := fun _ => []


/-- A well-behaved counter reducer used in witnesses. -/
def countRed : SubReducer Nat := fun s a =>
  if a.type? = some "INC" then some (s.getD 0 + 1) else some (s.getD 0)

/-- A reducer returning the absent sentinel for the KILL action. -/
def killRed : SubReducer Nat := fun s a =>
  if a.type? = some "KILL" then none else some (s.getD 0)

/-- A misshaped reducer: echoes its input, so an absent state stays absent. -/
def badRed : SubReducer Nat := fun s _ => s

/-- A concrete probe-type generator standing for the Math.random derived
probe type of assertReducerShape line 88. -/
def probe0 : String → String := fun _ => "@@redux/PROBE_UNKNOWN_ACTION_a.b.c"

/-- Concrete INC action. -/
def incAction : Action := { isPlain := true, type? := some "INC" }

/-- Concrete action unknown to the witnesses' reducers. -/
def nopAction : Action := { isPlain := true, type? := some "NOP" }

/-- Concrete KILL action. -/
def killAction : Action := { isPlain := true, type? := some "KILL" }

/-- A middleware that dispatches the INC action during its construction. -/
def mwX : MW := { constructDispatches := [incAction] }

/-! ### Theorems -/

theorem composeStep_assoc {α : Type} (f g h : JsFun α) :
    composeStep (composeStep f g) h = composeStep f (composeStep g h) := by
  funext args
  rfl

theorem foldl_composeStep {α : Type} (l : List (JsFun α)) :
    ∀ (f g : JsFun α) (args : List α),
      (l.foldl composeStep (composeStep f g)) args =
        f [(l.foldl composeStep g) args] := by
  induction l with
  | nil => intro f g args; rfl
  | cons h t ih =>
      intro f g args
      simp only [List.foldl_cons, composeStep_assoc]
      exact ih f (composeStep g h) args

theorem foldl_composeSpec {α : Type} [Inhabited α] (rest : List (JsFun α)) :
    ∀ (g : JsFun α) (args : List α),
      (rest.foldl composeStep g) args = composeSpec (g :: rest) args := by
  induction rest with
  | nil => intro g args; rfl
  | cons h t ih =>
      intro g args
      simp only [List.foldl_cons]
      rw [foldl_composeStep t g h args, ih h args]
      rfl

/-- Claim C8: compose applied to zero functions returns the identity on its
single argument; applied to one function it returns that function; applied to
two or more functions it behaves as right-to-left composition where the
rightmost function receives the original argument list and every function to
its left receives exactly one argument, so compose(f,g,h)(x) = f(g(h(x))). -/
theorem compose_right_to_left {α : Type} [Inhabited α] (x : α)
    (f g h : JsFun α) (fs : List (JsFun α)) (args : List α) :
    compose ([] : List (JsFun α)) [x] = x
    ∧ compose [f] args = f args
    ∧ compose fs args = composeSpec fs args
    ∧ compose [f, g, h] [x] = f [g [h [x]]] := by
  refine ⟨rfl, rfl, ?_, ?_⟩
  · match fs with
    | [] => rfl
    | [f'] => rfl
    | f' :: g' :: rest => exact foldl_composeSpec (g' :: rest) f' args
  · have hmain := foldl_composeSpec [g, h] f [x]
    simpa [compose, composeSpec] using hmain

theorem data_append_eq (a b : String) : (a ++ b).data = a.data ++ b.data := by
  cases a
  cases b
  rfl

theorem assertReducerShape_eq_none_iff {V : Type} (probe : String → String)
    (frs : List (String × SubReducer V)) :
    assertReducerShape probe frs = none ↔
      ∀ kr ∈ frs, kr.2 none initAction ≠ none ∧
        kr.2 none (probeAction (probe kr.1)) ≠ none := by
  induction frs with
  | nil => simp [assertReducerShape]
  | cons kr rest ih =>
      obtain ⟨key, red⟩ := kr
      cases h1 : red none initAction with
      | none => simp [assertReducerShape, h1]
      | some v1 =>
          cases h2 : red none (probeAction (probe key)) with
          | none => simp [assertReducerShape, h1, h2]
          | some v2 => simp [assertReducerShape, h1, h2, ih]

theorem assertReducerShape_eq_some {V : Type} (probe : String → String)
    (frs : List (String × SubReducer V)) (e : JsError)
    (h : assertReducerShape probe frs = some e) :
    ∃ kr ∈ frs,
      (e = .shapeInitUndefined kr.1 ∧ kr.2 none initAction = none) ∨
      (e = .shapeProbeUndefined kr.1 ∧
        kr.2 none (probeAction (probe kr.1)) = none) := by
  induction frs with
  | nil => simp [assertReducerShape] at h
  | cons kr rest ih =>
      obtain ⟨key, red⟩ := kr
      cases h1 : red none initAction with
      | none =>
          simp [assertReducerShape, h1] at h
          exact ⟨(key, red), by simp, Or.inl ⟨h.symm, h1⟩⟩
      | some v1 =>
          cases h2 : red none (probeAction (probe key)) with
          | none =>
              simp [assertReducerShape, h1, h2] at h
              exact ⟨(key, red), by simp, Or.inr ⟨h.symm, h2⟩⟩
          | some v2 =>
              simp only [assertReducerShape, h1, h2] at h
              obtain ⟨kr', hmem, hkr⟩ := ih h
              exact ⟨kr', by simp [hmem], hkr⟩

theorem combineLoop_ok {V : Type} [DecidableEq V] [Inhabited V]
    (frs : List (String × SubReducer V)) (state : Obj V) (a : Action)
    (hok : ∀ kr ∈ frs, kr.2 (objGet state kr.1) a ≠ none) :
    combineLoop frs state a = .ok (nextStateOf frs state a, anyChanged frs state a) := by
  induction frs with
  | nil => simp [combineLoop, nextStateOf, anyChanged]
  | cons kr rest ih =>
      obtain ⟨key, red⟩ := kr
      have hhead : red (objGet state key) a ≠ none := hok (key, red) (by simp)
      obtain ⟨nxt, hnxt⟩ := Option.ne_none_iff_exists'.mp hhead
      have hrest : ∀ kr ∈ rest, kr.2 (objGet state kr.1) a ≠ none := by
        intro kr hmem
        exact hok kr (by simp [hmem])
      rw [combineLoop, hnxt, ih hrest]
      simp only [nextStateOf, anyChanged, List.map_cons, List.any_cons]
      refine congrArg Except.ok (Prod.ext ?_ ?_)
      · simp [hnxt]
      · simp only [hnxt, Bool.or_comm]

theorem combineLoop_error {V : Type} [DecidableEq V] (state : Obj V) (a : Action) :
    ∀ (p : List (String × SubReducer V)) (k : String) (r : SubReducer V)
      (post : List (String × SubReducer V)),
      (∀ kr ∈ p, kr.2 (objGet state kr.1) a ≠ none) →
      r (objGet state k) a = none →
      combineLoop (p ++ (k, r) :: post) state a =
        .error (.undefinedReducerResult k a.type?) := by
  intro p
  induction p with
  | nil =>
      intro k r post _ hfail
      simp [combineLoop, hfail]
  | cons kr rest ih =>
      intro k r post hp hfail
      obtain ⟨key, red⟩ := kr
      have hhead : red (objGet state key) a ≠ none := hp (key, red) (by simp)
      obtain ⟨nxt, hnxt⟩ := Option.ne_none_iff_exists'.mp hhead
      have hrest : ∀ kr ∈ rest, kr.2 (objGet state kr.1) a ≠ none := by
        intro kr hmem
        exact hp kr (by simp [hmem])
      rw [List.cons_append, combineLoop, hnxt, ih k r post hrest hfail]

theorem combineLoop_congr {V : Type} [DecidableEq V] (a : Action) :
    ∀ (frs : List (String × SubReducer V)) (state state' : Obj V),
      (∀ kr ∈ frs, objGet state kr.1 = objGet state' kr.1) →
      combineLoop frs state a = combineLoop frs state' a := by
  intro frs
  induction frs with
  | nil => intro state state' _; rfl
  | cons kr rest ih =>
      intro state state' hagree
      obtain ⟨key, red⟩ := kr
      have hhead : objGet state key = objGet state' key := hagree (key, red) (by simp)
      have hrest : ∀ kr ∈ rest, objGet state kr.1 = objGet state' kr.1 := by
        intro kr hmem
        exact hagree kr (by simp [hmem])
      rw [combineLoop, combineLoop, ← hhead, ih state state' hrest]

theorem objGet_nextStateOf_none {V : Type} [Inhabited V]
    (frs : List (String × SubReducer V)) (state : Obj V) (a : Action) (k : String)
    (h : k ∉ frs.map Prod.fst) : objGet (nextStateOf frs state a) k = none := by
  induction frs with
  | nil => rfl
  | cons kr rest ih =>
      simp only [List.map_cons, List.mem_cons, not_or] at h
      have hne : kr.1 ≠ k := fun hh => h.1 hh.symm
      simp only [nextStateOf, List.map_cons, objGet, if_neg hne]
      simpa [nextStateOf] using ih h.2

theorem msg_infix_key_undefined (k : String) (t? : Option String) :
    List.IsInfix ("\"" ++ k ++ "\"").data
      (errorMessage (.undefinedReducerResult k t?)).data := by
  refine ⟨("Given action ").data ++ (actionNameOf t?).data ++ (", reducer ").data,
    undefinedMsgTail.data, ?_⟩
  simp [errorMessage, getUndefinedStateErrorMessage, data_append_eq,
    List.append_assoc]

theorem msg_infix_type (k t : String) (ht : t ≠ "") :
    List.IsInfix ("\"" ++ t ++ "\"").data
      (errorMessage (.undefinedReducerResult k (some t))).data := by
  refine ⟨("Given action ").data,
    (", reducer ").data ++ ("\"" ++ k ++ "\"").data ++ undefinedMsgTail.data, ?_⟩
  simp [errorMessage, getUndefinedStateErrorMessage, actionNameOf, ht,
    data_append_eq, List.append_assoc]

theorem msg_infix_an_action (k : String) (t? : Option String)
    (h : t? = none ∨ t? = some "") :
    List.IsInfix ("an action").data
      (errorMessage (.undefinedReducerResult k t?)).data := by
  refine ⟨("Given action ").data,
    (", reducer ").data ++ ("\"" ++ k ++ "\"").data ++ undefinedMsgTail.data, ?_⟩
  rcases h with h | h <;> subst h <;>
    simp [errorMessage, getUndefinedStateErrorMessage, actionNameOf,
      data_append_eq, List.append_assoc]

theorem msg_infix_shapeInit (k : String) :
    List.IsInfix k.data (errorMessage (.shapeInitUndefined k)).data := by
  refine ⟨("Reducer ").data ++ ("\"").data, ("\"").data ++ shapeInitMsgTail.data, ?_⟩
  simp [errorMessage, data_append_eq, List.append_assoc]

theorem msg_infix_shapeProbe (k : String) :
    List.IsInfix k.data (errorMessage (.shapeProbeUndefined k)).data := by
  refine ⟨("Reducer ").data ++ ("\"").data, ("\"").data ++ shapeProbeMsgTail.data, ?_⟩
  simp [errorMessage, data_append_eq, List.append_assoc]

theorem combination_unchanged {V : Type} [DecidableEq V] [Inhabited V]
    (frs : List (String × SubReducer V)) (state : Obj V) (a : Action)
    (hok : ∀ kr ∈ frs, kr.2 (objGet state kr.1) a ≠ none)
    (hall : ∀ kr ∈ frs, kr.2 (objGet state kr.1) a = objGet state kr.1) :
    combination none frs (some state) a = .ok state := by
  have hloop := combineLoop_ok frs state a hok
  have hch : anyChanged frs state a = false := by
    rw [anyChanged, List.any_eq_false]
    intro kr hmem
    simp [hall kr hmem]
  simp [combination, hloop, hch]

theorem combination_changed {V : Type} [DecidableEq V] [Inhabited V]
    (frs : List (String × SubReducer V)) (state : Obj V) (a : Action)
    (hok : ∀ kr ∈ frs, kr.2 (objGet state kr.1) a ≠ none)
    (hnall : ¬ ∀ kr ∈ frs, kr.2 (objGet state kr.1) a = objGet state kr.1) :
    combination none frs (some state) a = .ok (nextStateOf frs state a) := by
  have hloop := combineLoop_ok frs state a hok
  have hch : anyChanged frs state a = true := by
    rw [anyChanged, List.any_eq_true]
    push_neg at hnall
    obtain ⟨kr, hmem, hne⟩ := hnall
    exact ⟨kr, hmem, by simp [hne]⟩
  simp [combination, hloop, hch]

/-- Claim C5: for every mapping of reducers and every input state and action,
the transition function returned by combine returns the original state
reference when no retained sub-reducer's result differs by identity from its
previous sub-state, and otherwise returns a newly constructed record mapping
every retained name to its new sub-state.  Reference identity is modelled by
the result being the input object itself (extra keys included) as opposed to
the freshly built nextStateOf record. -/
theorem combination_referential_stability {V : Type} [DecidableEq V] [Inhabited V]
    (probe : String → String) (reducers : List (String × RVal V))
    (state : Obj V) (a : Action)
    (hshape : assertReducerShape probe (finalize reducers) = none)
    (hok : ∀ kr ∈ finalize reducers, kr.2 (objGet state kr.1) a ≠ none) :
    ((∀ kr ∈ finalize reducers, kr.2 (objGet state kr.1) a = objGet state kr.1) →
        combineReducers probe reducers (some state) a = .ok state)
    ∧ ((¬ ∀ kr ∈ finalize reducers, kr.2 (objGet state kr.1) a = objGet state kr.1) →
        combineReducers probe reducers (some state) a =
          .ok (nextStateOf (finalize reducers) state a)) := by
  constructor
  · intro hall
    rw [combineReducers, hshape]
    exact combination_unchanged (finalize reducers) state a hok hall
  · intro hnall
    rw [combineReducers, hshape]
    exact combination_changed (finalize reducers) state a hok hnall

/-- Witness for claim C5: a one-reducer mapping over state with an extra key;
the unknown action leaves the original object (extra key included), the INC
action yields the freshly built record. -/
theorem combination_referential_stability_witness :
    combineReducers probe0 [("count", RVal.fn countRed)]
        (some [("count", 3), ("extra", 9)]) incAction = .ok [("count", 4)]
    ∧ combineReducers probe0 [("count", RVal.fn countRed)]
        (some [("count", 3), ("extra", 9)]) nopAction =
      .ok [("count", 3), ("extra", 9)] := by
  constructor
  · have h := (combination_referential_stability probe0 [("count", RVal.fn countRed)]
      [("count", 3), ("extra", 9)] incAction (by decide) (by decide)).2 (by decide)
    rw [h]
    exact congrArg Except.ok (by decide)
  · exact (combination_referential_stability probe0 [("count", RVal.fn countRed)]
      [("count", 3), ("extra", 9)] nopAction (by decide) (by decide)).1 (by decide)

/-- Claim C6: composition-time validation probes every retained reducer with
an absent state and the INIT action and with an absent state and the
generated reserved-namespace probe type (validation passes exactly when every
probe returns a defined result); a failure is recorded as an error naming an
offending key whose probe indeed returned the absent sentinel; combine still
returns a transition function (combination is total), and the captured error
is raised on every invocation of the returned function. -/
theorem combine_shape_validation {V : Type} [DecidableEq V]
    (probe : String → String) (reducers : List (String × RVal V)) :
    (assertReducerShape probe (finalize reducers) = none ↔
      ∀ kr ∈ finalize reducers, kr.2 none initAction ≠ none ∧
        kr.2 none (probeAction (probe kr.1)) ≠ none)
    ∧ (∀ e, assertReducerShape probe (finalize reducers) = some e →
        (∃ kr ∈ finalize reducers,
          (e = .shapeInitUndefined kr.1 ∧ kr.2 none initAction = none) ∨
          (e = .shapeProbeUndefined kr.1 ∧
            kr.2 none (probeAction (probe kr.1)) = none))
        ∧ (∃ k, (e = .shapeInitUndefined k ∨ e = .shapeProbeUndefined k) ∧
            List.IsInfix k.data (errorMessage e).data))
    ∧ (∀ e state? aAct, assertReducerShape probe (finalize reducers) = some e →
        combineReducers probe reducers state? aAct = .error e) := by
  refine ⟨assertReducerShape_eq_none_iff probe (finalize reducers), ?_, ?_⟩
  · intro e he
    obtain ⟨kr, hmem, hkr⟩ := assertReducerShape_eq_some probe _ e he
    refine ⟨⟨kr, hmem, hkr⟩, ?_⟩
    rcases hkr with ⟨he1, -⟩ | ⟨he2, -⟩
    · exact ⟨kr.1, Or.inl he1, by rw [he1]; exact msg_infix_shapeInit kr.1⟩
    · exact ⟨kr.1, Or.inr he2, by rw [he2]; exact msg_infix_shapeProbe kr.1⟩
  · intro e state? aAct he
    rw [combineReducers, he]
    rfl

/-- Witness for claim C6: a mapping whose reducer echoes the absent state;
the captured shape error names the key and is raised on two distinct
invocations of the returned transition function. -/
theorem combine_shape_validation_witness :
    combineReducers probe0 [("bad", RVal.fn badRed)] (some [("bad", 0)]) incAction =
      .error (.shapeInitUndefined "bad")
    ∧ combineReducers probe0 [("bad", RVal.fn badRed)] none nopAction =
      .error (.shapeInitUndefined "bad") := by
  have h := (combine_shape_validation probe0 [("bad", RVal.fn badRed)]).2.2
  exact ⟨h _ _ _ (by decide), h _ _ _ (by decide)⟩

/-- Claim C7: when the transition function returned by combine reaches a
retained sub-reducer whose result on a concrete action is the absent
sentinel, it fails immediately with the undefined-reducer-result error whose
message names the offending key (quoted), and names the action's type when
it is a non-empty string, or says an action when the type is absent or
falsy-unavailable (the empty string). -/
theorem combination_undefined_result {V : Type} [DecidableEq V]
    (probe : String → String) (reducers : List (String × RVal V))
    (state : Obj V) (a : Action)
    (p : List (String × SubReducer V)) (k : String) (r : SubReducer V)
    (post : List (String × SubReducer V))
    (hshape : assertReducerShape probe (finalize reducers) = none)
    (hsplit : finalize reducers = p ++ (k, r) :: post)
    (hp : ∀ kr ∈ p, kr.2 (objGet state kr.1) a ≠ none)
    (hfail : r (objGet state k) a = none) :
    combineReducers probe reducers (some state) a =
        .error (.undefinedReducerResult k a.type?)
    ∧ List.IsInfix ("\"" ++ k ++ "\"").data
        (errorMessage (.undefinedReducerResult k a.type?)).data
    ∧ (∀ t, a.type? = some t → t ≠ "" →
        List.IsInfix ("\"" ++ t ++ "\"").data
          (errorMessage (.undefinedReducerResult k a.type?)).data)
    ∧ ((a.type? = none ∨ a.type? = some "") →
        List.IsInfix ("an action").data
          (errorMessage (.undefinedReducerResult k a.type?)).data) := by
  refine ⟨?_, msg_infix_key_undefined k a.type?, ?_, msg_infix_an_action k a.type?⟩
  · have hloop := combineLoop_error state a p k r post hp hfail
    rw [combineReducers, hshape, hsplit, combination]
    simp [hloop]
  · intro t hts htne
    rw [hts]
    exact msg_infix_type k t htne

/-- Witness for claim C7: a two-reducer mapping where the second reducer
returns undefined for the KILL action; the composed function fails with the
error naming the key kill and the type KILL. -/
theorem combination_undefined_result_witness :
    combineReducers probe0 [("count", RVal.fn countRed), ("kill", RVal.fn killRed)]
        (some [("count", 1)]) killAction =
      .error (.undefinedReducerResult "kill" (some "KILL"))
    ∧ List.IsInfix ("\"" ++ "kill" ++ "\"").data
        (errorMessage (.undefinedReducerResult "kill" (some "KILL"))).data := by
  have h := combination_undefined_result probe0
    [("count", RVal.fn countRed), ("kill", RVal.fn killRed)] [("count", 1)]
    killAction [("count", countRed)] "kill" killRed [] (by decide) (by rfl)
    (by decide) (by decide)
  exact ⟨h.1, h.2.1⟩

/-- Claim C10: input state keys with no retained reducer are never examined
for change detection (the loop's outcome depends only on the retained keys'
sub-states); if no retained sub-state changed, the original state object is
returned (extra keys survive), and if any retained sub-state changed, the
newly built record contains only the retained names (extra keys dropped). -/
theorem combination_extra_keys {V : Type} [DecidableEq V] [Inhabited V]
    (probe : String → String) (reducers : List (String × RVal V))
    (state state' : Obj V) (a : Action)
    (hshape : assertReducerShape probe (finalize reducers) = none)
    (hok : ∀ kr ∈ finalize reducers, kr.2 (objGet state kr.1) a ≠ none)
    (hagree : ∀ kr ∈ finalize reducers, objGet state kr.1 = objGet state' kr.1) :
    combineLoop (finalize reducers) state a = combineLoop (finalize reducers) state' a
    ∧ ((∀ kr ∈ finalize reducers, kr.2 (objGet state kr.1) a = objGet state kr.1) →
        combineReducers probe reducers (some state) a = .ok state)
    ∧ ((¬ ∀ kr ∈ finalize reducers, kr.2 (objGet state kr.1) a = objGet state kr.1) →
        ∀ k, k ∉ (finalize reducers).map Prod.fst →
          combineReducers probe reducers (some state) a =
            .ok (nextStateOf (finalize reducers) state a)
          ∧ objGet (nextStateOf (finalize reducers) state a) k = none) := by
  refine ⟨combineLoop_congr a (finalize reducers) state state' hagree, ?_, ?_⟩
  · intro hall
    rw [combineReducers, hshape]
    exact combination_unchanged (finalize reducers) state a hok hall
  · intro hnall k hk
    refine ⟨?_, objGet_nextStateOf_none (finalize reducers) state a k hk⟩
    rw [combineReducers, hshape]
    exact combination_changed (finalize reducers) state a hok hnall

/-- Witness for claim C10: the loop ignores the extra key, and the changed
result drops it. -/
theorem combination_extra_keys_witness :
    combineLoop (finalize [("count", RVal.fn countRed)])
        [("count", 3), ("extra", 9)] incAction =
      combineLoop (finalize [("count", RVal.fn countRed)]) [("count", 3)] incAction
    ∧ combineReducers probe0 [("count", RVal.fn countRed)]
        (some [("count", 3), ("extra", 9)]) incAction = .ok [("count", 4)] := by
  have h := combination_extra_keys probe0 [("count", RVal.fn countRed)]
    [("count", 3), ("extra", 9)] [("count", 3)] incAction (by decide) (by decide)
    (by decide)
  refine ⟨h.1, ?_⟩
  have h2 := (h.2.2 (by decide) "extra" (by decide)).1
  rw [h2]
  exact congrArg Except.ok (by decide)

theorem getD_append_of_lt {α : Type} :
    ∀ (l : List α) (l2 : List α) (i : Nat) (d : α), i < l.length →
      (l ++ l2).getD i d = l.getD i d := by
  intro l
  induction l with
  | nil => intro l2 i d h; simp at h
  | cons x xs ih =>
      intro l2 i d h
      cases i with
      | zero => rfl
      | succ i =>
          simp only [List.cons_append, List.getD_cons_succ]
          exact ih l2 i d (by simpa using h)

theorem getD_append_length {α : Type} :
    ∀ (l : List α) (x : α) (d : α), (l ++ [x]).getD l.length d = x := by
  intro l
  induction l with
  | nil => intro x d; rfl
  | cons y ys ih =>
      intro x d
      simpa only [List.cons_append, List.length_cons, List.getD_cons_succ] using ih x d

theorem getD_set_self {α : Type} :
    ∀ (l : List α) (i : Nat) (x d : α), i < l.length →
      (l.set i x).getD i d = x := by
  intro l
  induction l with
  | nil => intro i x d h; simp at h
  | cons y ys ih =>
      intro i x d h
      cases i with
      | zero => rfl
      | succ i =>
          simp only [List.set_cons_succ, List.getD_cons_succ]
          exact ih i x d (by simpa using h)

theorem getD_set_of_ne {α : Type} :
    ∀ (l : List α) (i j : Nat) (x d : α), i ≠ j →
      (l.set i x).getD j d = l.getD j d := by
  intro l
  induction l with
  | nil => intro i j x d _; simp [List.set]
  | cons y ys ih =>
      intro i j x d hne
      cases i with
      | zero =>
          cases j with
          | zero => exact absurd rfl hne
          | succ j => rfl
      | succ i =>
          cases j with
          | zero => rfl
          | succ j =>
              simp only [List.set_cons_succ, List.getD_cons_succ]
              exact ih i j x d (fun hh => hne (by rw [hh]))

theorem drop_cons_getD {α : Type} (d : α) :
    ∀ (l : List α) (i : Nat), i < l.length →
      l.drop i = l.getD i d :: l.drop (i+1) := by
  intro l
  induction l with
  | nil => intro i h; simp at h
  | cons x xs ih =>
      intro i h
      cases i with
      | zero => simp
      | succ i =>
          simp only [List.drop_succ_cons, List.getD_cons_succ]
          exact ih i (by simpa using h)

theorem ensure_inv {S : Type} {r : Nat} {L0 : List Nat} {s : S} {N : List Nat}
    {st : StoreSt S} (h : NInv r L0 s N st) :
    NInv r L0 s N (ensureCanMutateNextListeners st)
    ∧ (ensureCanMutateNextListeners st).nextListeners ≠ r := by
  have hr : r < st.heap.length := h.cur ▸ h.wfc
  unfold ensureCanMutateNextListeners
  by_cases heq : st.nextListeners = st.currentListeners
  · rw [if_pos heq]
    refine ⟨⟨h.cur, ?_, ?_, ?_, h.cs, h.gu, ?_⟩, ?_⟩
    · show (st.heap ++ [arrAt st st.currentListeners]).getD r [] = L0
      rw [getD_append_of_lt st.heap _ r [] hr]
      exact h.snap
    · simpa using Nat.lt_succ_of_lt h.wfc
    · simp
    · show (st.heap ++ [arrAt st st.currentListeners]).getD st.heap.length [] = N
      rw [getD_append_length]
      rw [← heq]
      exact h.reg
    · exact Nat.ne_of_gt hr
  · rw [if_neg heq]
    exact ⟨h, fun hh => heq (hh.trans h.cur.symm)⟩

theorem subscribeEff_inv {S : Type} {r : Nat} {L0 : List Nat} {s : S}
    {N : List Nat} {st : StoreSt S} (j : Nat) (h : NInv r L0 s N st) :
    NInv r L0 s (N ++ [j]) (subscribeEff st j) := by
  obtain ⟨h1, hne⟩ := ensure_inv h
  unfold subscribeEff
  refine ⟨h1.cur, ?_, ?_, ?_, h1.cs, h1.gu, ?_⟩
  · show ((ensureCanMutateNextListeners st).heap.set
      (ensureCanMutateNextListeners st).nextListeners _).getD r [] = L0
    rw [getD_set_of_ne _ _ _ _ _ hne]
    exact h1.snap
  · simpa [heapWrite] using h1.wfc
  · simpa [heapWrite] using h1.wfn
  · show ((ensureCanMutateNextListeners st).heap.set
      (ensureCanMutateNextListeners st).nextListeners _).getD
        (ensureCanMutateNextListeners st).nextListeners [] = N ++ [j]
    rw [getD_set_self _ _ _ _ h1.wfn]
    rw [show arrAt (ensureCanMutateNextListeners st)
      (ensureCanMutateNextListeners st).nextListeners = N from h1.reg]

theorem unsubscribeEff_inv {S : Type} {r : Nat} {L0 : List Nat} {s : S}
    {N : List Nat} {st : StoreSt S} (j : Nat) (h : NInv r L0 s N st) :
    NInv r L0 s (N.erase j) (unsubscribeEff st j) := by
  obtain ⟨h1, hne⟩ := ensure_inv h
  unfold unsubscribeEff
  refine ⟨h1.cur, ?_, ?_, ?_, h1.cs, h1.gu, ?_⟩
  · show ((ensureCanMutateNextListeners st).heap.set
      (ensureCanMutateNextListeners st).nextListeners _).getD r [] = L0
    rw [getD_set_of_ne _ _ _ _ _ hne]
    exact h1.snap
  · simpa [heapWrite] using h1.wfc
  · simpa [heapWrite] using h1.wfn
  · show ((ensureCanMutateNextListeners st).heap.set
      (ensureCanMutateNextListeners st).nextListeners _).getD
        (ensureCanMutateNextListeners st).nextListeners [] = N.erase j
    rw [getD_set_self _ _ _ _ h1.wfn]
    rw [show arrAt (ensureCanMutateNextListeners st)
      (ensureCanMutateNextListeners st).nextListeners = N from h1.reg]

theorem runCmds_inv {S : Type} {r : Nat} {L0 : List Nat} {s : S} :
    ∀ (cmds : List LCmd) (N : List Nat) (st : StoreSt S), NInv r L0 s N st →
      NInv r L0 s (regEffect cmds N) (runCmds st cmds).1
      ∧ (runCmds st cmds).2 = firstThrow cmds := by
  intro cmds
  induction cmds with
  | nil => intro N st h; exact ⟨h, rfl⟩
  | cons c cs ih =>
      intro N st h
      cases c with
      | throwC e => exact ⟨h, rfl⟩
      | subscribeC j =>
          simpa [runCmds, regEffect, firstThrow] using
            ih (N ++ [j]) (subscribeEff st j) (subscribeEff_inv j h)
      | unsubscribeC j =>
          simpa [runCmds, regEffect, firstThrow] using
            ih (N.erase j) (unsubscribeEff st j) (unsubscribeEff_inv j h)

theorem ensure_guard {S : Type} (st : StoreSt S) :
    (ensureCanMutateNextListeners st).isDispatching = st.isDispatching := by
  unfold ensureCanMutateNextListeners
  split <;> rfl

theorem runCmds_guard {S : Type} :
    ∀ (cmds : List LCmd) (st : StoreSt S),
      (runCmds st cmds).1.isDispatching = st.isDispatching := by
  intro cmds
  induction cmds with
  | nil => intro st; rfl
  | cons c cs ih =>
      intro st
      cases c with
      | throwC e => rfl
      | subscribeC j =>
          rw [runCmds, ih]
          simp [subscribeEff, heapWrite, ensure_guard]
      | unsubscribeC j =>
          rw [runCmds, ih]
          simp [unsubscribeEff, heapWrite, ensure_guard]

theorem notifyGo_guard {S : Type} (env : Nat → List LCmd) (r : Nat) :
    ∀ (fuel i : Nat) (st : StoreSt S) (tr : List (Nat × S × Bool)),
      st.isDispatching = false → (∀ x ∈ tr, x.2.2 = false) →
      ∀ x ∈ (notifyGo env r fuel i st tr).trace, x.2.2 = false := by
  intro fuel
  induction fuel with
  | zero =>
      intro i st tr hg htr
      simp only [notifyGo]
      split
      · intro x hx; simp [NotifyRes.trace] at hx
      · simpa [NotifyRes.trace] using htr
  | succ fuel ih =>
      intro i st tr hg htr
      simp only [notifyGo]
      split
      · have htr1 : ∀ x ∈ tr ++
            [((arrAt st r).getD i 0, st.currentState, st.isDispatching)],
            x.2.2 = false := by
          intro x hx
          rcases List.mem_append.mp hx with hx | hx
          · exact htr x hx
          · simp at hx
            simp [hx, hg]
        split
        · simpa [NotifyRes.trace] using htr1
        · exact ih (i+1) _ _ (by rw [runCmds_guard]; exact hg) htr1
      · simpa [NotifyRes.trace] using htr

theorem notifyGo_run {S : Type} (env : Nat → List LCmd) (r : Nat) (L0 : List Nat)
    (s : S) :
    ∀ (fuel i : Nat) (st : StoreSt S) (tr : List (Nat × S × Bool)) (N : List Nat),
      NInv r L0 s N st → i + fuel = L0.length →
      (∀ id ∈ L0.drop i, firstThrow (env id) = none) →
      ∃ st', notifyGo env r fuel i st tr =
          .done st' (tr ++ (L0.drop i).map (fun id => (id, s, false)))
        ∧ NInv r L0 s (foldRegs env (L0.drop i) N) st' := by
  intro fuel
  induction fuel with
  | zero =>
      intro i st tr N h hlen hnothrow
      have hi : i = L0.length := by omega
      have hdrop : L0.drop i = [] := by rw [hi, List.drop_length]
      refine ⟨st, ?_, ?_⟩
      · simp only [notifyGo]
        have hnlt : ¬ i < (arrAt st r).length := by rw [h.snap, hi]; omega
        rw [if_neg hnlt, hdrop]
        simp
      · rw [hdrop]
        exact h
  | succ fuel ih =>
      intro i st tr N h hlen hnothrow
      have hi : i < L0.length := by omega
      have hlt : i < (arrAt st r).length := by rw [h.snap]; exact hi
      have hdropeq : L0.drop i = L0.getD i 0 :: L0.drop (i+1) :=
        drop_cons_getD 0 L0 i hi
      have hid : (arrAt st r).getD i 0 = L0.getD i 0 := by rw [h.snap]
      have hft : firstThrow (env (L0.getD i 0)) = none :=
        hnothrow _ (by rw [hdropeq]; exact List.mem_cons_self _ _)
      have hrun := runCmds_inv (env ((arrAt st r).getD i 0)) N st h
      have hsnd : (runCmds st (env ((arrAt st r).getD i 0))).2 = none := by
        rw [hrun.2, hid, hft]
      have hnothrow' : ∀ id ∈ L0.drop (i+1), firstThrow (env id) = none := by
        intro id hmem'
        exact hnothrow id (by rw [hdropeq]; exact List.mem_cons_of_mem _ hmem')
      obtain ⟨st', hrec, hinv'⟩ := ih (i+1)
        (runCmds st (env ((arrAt st r).getD i 0))).1
        (tr ++ [((arrAt st r).getD i 0, st.currentState, st.isDispatching)])
        (regEffect (env ((arrAt st r).getD i 0)) N) hrun.1 (by omega) hnothrow'
      rw [hid] at hinv'
      refine ⟨st', ?_, ?_⟩
      · simp only [notifyGo]
        rw [if_pos hlt]
        simp only [hsnd]
        rw [hrec, hdropeq, hid, h.cs, h.gu]
        simp
      · rw [hdropeq]
        exact hinv'

theorem notifyGo_throw {S : Type} (env : Nat → List LCmd) (r : Nat) (L0 : List Nat)
    (s : S) (t : Nat) (q : List Nat) (e : JsError) :
    ∀ (p : List Nat) (fuel i : Nat) (st : StoreSt S)
      (tr : List (Nat × S × Bool)) (N : List Nat),
      NInv r L0 s N st → i + fuel = L0.length →
      L0.drop i = p ++ t :: q →
      (∀ id ∈ p, firstThrow (env id) = none) →
      firstThrow (env t) = some e →
      ∃ st', notifyGo env r fuel i st tr =
          .failed e st' (tr ++ (p ++ [t]).map (fun id => (id, s, false)))
        ∧ st'.currentState = s ∧ st'.isDispatching = false := by
  intro p
  induction p with
  | nil =>
      intro fuel i st tr N h hlen hdrop hpre hthrow
      have hne : L0.drop i ≠ [] := by rw [hdrop]; simp
      have hi : i < L0.length := by
        by_contra hge
        exact hne (List.drop_eq_nil_of_le (by omega))
      cases fuel with
      | zero => omega
      | succ fuel =>
          have hlt : i < (arrAt st r).length := by rw [h.snap]; exact hi
          have hdropeq : L0.drop i = L0.getD i 0 :: L0.drop (i+1) :=
            drop_cons_getD 0 L0 i hi
          have hparts : L0.getD i 0 = t ∧ L0.drop (i+1) = q := by
            rw [hdropeq] at hdrop
            simpa using hdrop
          have hid : (arrAt st r).getD i 0 = t := by rw [h.snap]; exact hparts.1
          have hrun := runCmds_inv (env ((arrAt st r).getD i 0)) N st h
          have hsnd : (runCmds st (env ((arrAt st r).getD i 0))).2 = some e := by
            rw [hrun.2, hid, hthrow]
          refine ⟨(runCmds st (env ((arrAt st r).getD i 0))).1, ?_,
            hrun.1.cs, hrun.1.gu⟩
          simp only [notifyGo]
          rw [if_pos hlt]
          simp only [hsnd]
          rw [hid, h.cs, h.gu]
          simp
  | cons x p' ih =>
      intro fuel i st tr N h hlen hdrop hpre hthrow
      have hne : L0.drop i ≠ [] := by rw [hdrop]; simp
      have hi : i < L0.length := by
        by_contra hge
        exact hne (List.drop_eq_nil_of_le (by omega))
      cases fuel with
      | zero => omega
      | succ fuel =>
          have hlt : i < (arrAt st r).length := by rw [h.snap]; exact hi
          have hdropeq : L0.drop i = L0.getD i 0 :: L0.drop (i+1) :=
            drop_cons_getD 0 L0 i hi
          have hparts : L0.getD i 0 = x ∧ L0.drop (i+1) = p' ++ t :: q := by
            rw [hdropeq] at hdrop
            simpa using hdrop
          have hid : (arrAt st r).getD i 0 = x := by rw [h.snap]; exact hparts.1
          have hftx : firstThrow (env x) = none := hpre x (by simp)
          have hrun := runCmds_inv (env ((arrAt st r).getD i 0)) N st h
          have hsnd : (runCmds st (env ((arrAt st r).getD i 0))).2 = none := by
            rw [hrun.2, hid, hftx]
          have hpre' : ∀ id ∈ p', firstThrow (env id) = none := by
            intro id hm
            exact hpre id (by simp [hm])
          obtain ⟨st', hrec, hcs, hgu⟩ := ih fuel (i+1)
            (runCmds st (env ((arrAt st r).getD i 0))).1
            (tr ++ [((arrAt st r).getD i 0, st.currentState, st.isDispatching)])
            (regEffect (env ((arrAt st r).getD i 0)) N) hrun.1 (by omega)
            hparts.2 hpre' hthrow
          refine ⟨st', ?_, hcs, hgu⟩
          simp only [notifyGo]
          rw [if_pos hlt]
          simp only [hsnd]
          rw [hrec, hid, h.cs, h.gu]
          simp

theorem notifyPhase_ne_rejected {S : Type} (env : Nat → List LCmd)
    (st2 : StoreSt S) (a : Action) (e : JsError) (stx : StoreSt S) :
    notifyPhase env st2 a ≠ .rejected e stx := by
  unfold notifyPhase
  split <;> simp

theorem notifyPhase_trace_guard {S : Type} (env : Nat → List LCmd)
    (st2 : StoreSt S) (a : Action) (hg : st2.isDispatching = false) :
    ∀ x ∈ (notifyPhase env st2 a).trace, x.2.2 = false := by
  have h := notifyGo_guard env st2.currentListeners
    ((arrAt st2 st2.currentListeners).length) 0 st2 [] hg (by simp)
  unfold notifyPhase
  cases hres : notifyGo env st2.currentListeners
      ((arrAt st2 st2.currentListeners).length) 0 st2 [] with
  | done st' tr' =>
      rw [hres] at h
      simpa [NotifyRes.trace, DResult.trace] using h
  | failed e' st' tr' =>
      rw [hres] at h
      simpa [NotifyRes.trace, DResult.trace] using h
  | fuelOut =>
      intro x hx
      simp [DResult.trace] at hx

theorem guard_reset_eq {S : Type} (st : StoreSt S) (h : st.isDispatching = false) :
    ({ st with isDispatching := false } : StoreSt S) = st := by
  cases st
  simp_all

theorem dispatch_error_eq {S : Type} (red : Reducer S) (env : Nat → List LCmd)
    (st : StoreSt S) (a : Action) (e : JsError)
    (hp : a.isPlain = true) (ht : a.type? ≠ none)
    (hidle : st.isDispatching = false)
    (hred : red st.currentState a = .error e) :
    dispatch red env st a = .threw e st [] := by
  unfold dispatch
  rw [if_neg (by simp [hp]), if_neg ht, if_neg (by simp [hidle])]
  have hsc : red (storeDuringReducer st).currentState a = .error e := by
    simpa [storeDuringReducer] using hred
  simp only [hsc]
  rw [guard_reset_eq st hidle]

theorem dispatch_ok_eq {S : Type} (red : Reducer S) (env : Nat → List LCmd)
    (st : StoreSt S) (a : Action) (ns : S)
    (hp : a.isPlain = true) (ht : a.type? ≠ none)
    (hidle : st.isDispatching = false)
    (hred : red st.currentState a = .ok ns) :
    dispatch red env st a = notifyPhase env (postReducerStore st ns) a := by
  unfold dispatch
  rw [if_neg (by simp [hp]), if_neg ht, if_neg (by simp [hidle])]
  have hsc : red (storeDuringReducer st).currentState a = .ok ns := by
    simpa [storeDuringReducer] using hred
  simp only [hsc]

theorem dispatch_trace_guard {S : Type} (red : Reducer S) (env : Nat → List LCmd)
    (st : StoreSt S) (a : Action) :
    ∀ x ∈ (dispatch red env st a).trace, x.2.2 = false := by
  unfold dispatch
  by_cases h1 : a.isPlain = false
  · rw [if_pos h1]; intro x hx; simp [DResult.trace] at hx
  · rw [if_neg h1]
    by_cases h2 : a.type? = none
    · rw [if_pos h2]; intro x hx; simp [DResult.trace] at hx
    · rw [if_neg h2]
      by_cases h3 : st.isDispatching = true
      · rw [if_pos h3]; intro x hx; simp [DResult.trace] at hx
      · rw [if_neg h3]
        cases hred : red (storeDuringReducer st).currentState a with
        | error e => intro x hx; simp [DResult.trace] at hx
        | ok ns => exact notifyPhase_trace_guard env (postReducerStore st ns) a rfl

/-- Claim C1: dispatch sets the guard only for the duration of the
transition-function invocation; if the transition function raises, the guard
is released before the failure propagates and the stored State is unchanged
from before the dispatch (the resulting store is the input store itself, and
no listener is notified); on normal return the State becomes exactly the
transition function's result, assigned (together with the guard release and
registry snapshot) before the notification phase starts. -/
theorem dispatch_guard_scoped {S : Type} (red : Reducer S)
    (env : Nat → List LCmd) (st : StoreSt S) (a : Action)
    (hp : a.isPlain = true) (ht : a.type? ≠ none)
    (hidle : st.isDispatching = false) :
    (∀ e, red st.currentState a = .error e →
        dispatch red env st a = .threw e st [])
    ∧ (∀ ns, red st.currentState a = .ok ns →
        dispatch red env st a = notifyPhase env (postReducerStore st ns) a
        ∧ (postReducerStore st ns).currentState = ns
        ∧ (postReducerStore st ns).isDispatching = false
        ∧ (storeDuringReducer st).isDispatching = true) := by
  constructor
  · intro e hred
    exact dispatch_error_eq red env st a e hp ht hidle hred
  · intro ns hred
    exact ⟨dispatch_ok_eq red env st a ns hp ht hidle hred, rfl, rfl, rfl⟩

/-- Witness for claim C1: a throwing reducer leaves the concrete store
untouched with the guard released; a normal reducer hands the notification
phase a store already holding the new state. -/
theorem dispatch_guard_scoped_witness :
    dispatch boomRed envNone store0 incAction =
      .threw (.userError 3) store0 []
    ∧ dispatch stepRed envNone store0 incAction =
      notifyPhase envNone (postReducerStore store0 6) incAction := by
  constructor
  · exact (dispatch_guard_scoped boomRed envNone store0 incAction rfl
      (by decide) rfl).1 (.userError 3) rfl
  · exact ((dispatch_guard_scoped stepRed envNone store0 incAction rfl
      (by decide) rfl).2 6 rfl).1

/-- Claim C2: every listener in the snapshot taken at dispatch time
(registration order of the registry as it stood when the dispatch began) is
invoked exactly once, in order, before dispatch returns, each observing the
post-transition state with the guard released; a listener id not in the
snapshot never appears in the trace (a listener subscribed during the pass
is not invoked until a subsequent dispatch), while the registry left for
future dispatches is the snapshot with every subscribe/unsubscribe effect of
the pass applied — so unsubscribed listeners are still invoked in the
current pass yet excluded from future ones (copy-on-write). -/
theorem dispatch_listener_snapshot {S : Type} (red : Reducer S)
    (env : Nat → List LCmd) (st : StoreSt S) (a : Action) (ns : S)
    (hp : a.isPlain = true) (ht : a.type? ≠ none)
    (hidle : st.isDispatching = false) (hwf : WFStore st)
    (hred : red st.currentState a = .ok ns)
    (hnothrow : ∀ id ∈ arrAt st st.nextListeners, firstThrow (env id) = none) :
    ∃ st', dispatch red env st a =
        .ok st' ((arrAt st st.nextListeners).map (fun id => (id, ns, false))) a
      ∧ st'.currentState = ns
      ∧ st'.isDispatching = false
      ∧ arrAt st' st'.nextListeners =
          foldRegs env (arrAt st st.nextListeners) (arrAt st st.nextListeners)
      ∧ ∀ j, j ∉ arrAt st st.nextListeners →
          ∀ sv gv, (j, sv, gv) ∉
            (arrAt st st.nextListeners).map (fun id => (id, ns, false)) := by
  have hde := dispatch_ok_eq red env st a ns hp ht hidle hred
  have hinv : NInv (postReducerStore st ns).currentListeners
      (arrAt st st.nextListeners) ns (arrAt st st.nextListeners)
      (postReducerStore st ns) :=
    ⟨rfl, rfl, hwf.2, hwf.2, rfl, rfl, rfl⟩
  have hlen : 0 + (arrAt (postReducerStore st ns)
      (postReducerStore st ns).currentListeners).length =
        (arrAt st st.nextListeners).length := by
    rw [Nat.zero_add]
    rfl
  obtain ⟨st', hdone, hinv'⟩ := notifyGo_run env
    (postReducerStore st ns).currentListeners (arrAt st st.nextListeners) ns
    ((arrAt (postReducerStore st ns)
      (postReducerStore st ns).currentListeners).length) 0
    (postReducerStore st ns) [] (arrAt st st.nextListeners) hinv hlen
    (by simpa using hnothrow)
  refine ⟨st', ?_, hinv'.cs, hinv'.gu, ?_, ?_⟩
  · rw [hde]
    unfold notifyPhase
    rw [hdone]
    simp
  · simpa using hinv'.reg
  · intro j hj sv gv hmem
    obtain ⟨id, hid, heq⟩ := List.mem_map.mp hmem
    cases heq
    exact hj hid

/-- Witness for claim C2: the store with listeners 0 and 1, where 0
subscribes 2 and 1 unsubscribes 0 during the pass: both snapshot listeners
run exactly once seeing state 6, and the registry left behind is the result
of both effects. -/
theorem dispatch_listener_snapshot_witness :
    ∃ st', dispatch stepRed env0 store0 incAction =
        .ok st' [(0, 6, false), (1, 6, false)] incAction
      ∧ st'.currentState = 6
      ∧ arrAt st' st'.nextListeners = [1, 2] := by
  obtain ⟨st', h1, h2, h3, h4, h5⟩ := dispatch_listener_snapshot stepRed env0
    store0 incAction 6 rfl (by decide) rfl ⟨by decide, by decide⟩ rfl (by decide)
  refine ⟨st', ?_, h2, ?_⟩
  · rw [h1]
    rfl
  · rw [h4]
    rfl

/-- Claim C3: dispatch invoked against the store as a transition function
sees it (the guard set) fails with the reentrancy error and leaves the store
unchanged; the guard is set only during the transition-function call — it is
released in the store handed to the notification phase, every listener
invocation of any dispatch observes a released guard, and a dispatch of a
valid action against any guard-released store is never rejected. -/
theorem dispatch_reentrancy {S : Type} (red : Reducer S)
    (env : Nat → List LCmd) (st : StoreSt S) (a : Action)
    (hp : a.isPlain = true) (ht : a.type? ≠ none) :
    dispatch red env (storeDuringReducer st) a =
        .rejected .reducersMayNotDispatch (storeDuringReducer st)
    ∧ (storeDuringReducer st).currentState = st.currentState
    ∧ (storeDuringReducer st).isDispatching = true
    ∧ (∀ ns, (postReducerStore st ns).isDispatching = false)
    ∧ (∀ (st' : StoreSt S) (a' : Action), a'.isPlain = true → a'.type? ≠ none →
        st'.isDispatching = false →
        ∀ (e : JsError) (stx : StoreSt S), dispatch red env st' a' ≠ .rejected e stx)
    ∧ (∀ x ∈ (dispatch red env st a).trace, x.2.2 = false) := by
  refine ⟨?_, rfl, rfl, fun ns => rfl, ?_, dispatch_trace_guard red env st a⟩
  · unfold dispatch
    rw [if_neg (by simp [hp]), if_neg ht,
      if_pos (show (storeDuringReducer st).isDispatching = true from rfl)]
  · intro st' a' hp' ht' hidle' e stx
    unfold dispatch
    rw [if_neg (by simp [hp']), if_neg ht', if_neg (by simp [hidle'])]
    cases hred : red (storeDuringReducer st').currentState a' with
    | error e2 => simp
    | ok ns => exact notifyPhase_ne_rejected env (postReducerStore st' ns) a' e stx

/-- Witness for claim C3: a dispatch issued while the concrete store is mid
transition is rejected with the reentrancy error and the store unchanged. -/
theorem dispatch_reentrancy_witness :
    dispatch stepRed envNone (storeDuringReducer store0) incAction =
      .rejected .reducersMayNotDispatch (storeDuringReducer store0) :=
  (dispatch_reentrancy stepRed envNone store0 incAction rfl (by decide)).1

/-- Claim C9: if a listener in the snapshot raises during the notification
phase, the exception propagates to the caller of dispatch, the trace is
exactly the snapshot prefix up to and including the throwing listener
(later listeners are not invoked), and the State retains the new
post-transition value with the guard released. -/
theorem dispatch_listener_throw {S : Type} (red : Reducer S)
    (env : Nat → List LCmd) (st : StoreSt S) (a : Action) (ns : S)
    (p : List Nat) (t : Nat) (q : List Nat) (e : JsError)
    (hp : a.isPlain = true) (ht : a.type? ≠ none)
    (hidle : st.isDispatching = false) (hwf : WFStore st)
    (hred : red st.currentState a = .ok ns)
    (hsplit : arrAt st st.nextListeners = p ++ t :: q)
    (hpre : ∀ id ∈ p, firstThrow (env id) = none)
    (hthrow : firstThrow (env t) = some e) :
    ∃ st', dispatch red env st a =
        .threw e st' ((p ++ [t]).map (fun id => (id, ns, false)))
      ∧ st'.currentState = ns ∧ st'.isDispatching = false := by
  have hde := dispatch_ok_eq red env st a ns hp ht hidle hred
  have hinv : NInv (postReducerStore st ns).currentListeners
      (arrAt st st.nextListeners) ns (arrAt st st.nextListeners)
      (postReducerStore st ns) :=
    ⟨rfl, rfl, hwf.2, hwf.2, rfl, rfl, rfl⟩
  have hlen : 0 + (arrAt (postReducerStore st ns)
      (postReducerStore st ns).currentListeners).length =
        (arrAt st st.nextListeners).length := by
    rw [Nat.zero_add]
    rfl
  obtain ⟨st', hfail, hcs, hgu⟩ := notifyGo_throw env
    (postReducerStore st ns).currentListeners (arrAt st st.nextListeners) ns
    t q e p ((arrAt (postReducerStore st ns)
      (postReducerStore st ns).currentListeners).length) 0
    (postReducerStore st ns) [] (arrAt st st.nextListeners) hinv hlen
    (by simpa using hsplit) hpre hthrow
  refine ⟨st', ?_, hcs, hgu⟩
  rw [hde]
  unfold notifyPhase
  rw [hfail]
  simp

/-- Witness for claim C9: listener 1 of the concrete store throws; listener 0
still ran, both invocations saw the new state 6, the error propagates and
the final state keeps the value 6. -/
theorem dispatch_listener_throw_witness :
    ∃ st', dispatch stepRed env1 store0 incAction =
        .threw (.userError 7) st' [(0, 6, false), (1, 6, false)]
      ∧ st'.currentState = 6 := by
  obtain ⟨st', h1, h2, h3⟩ := dispatch_listener_throw stepRed env1 store0
    incAction 6 [0] 1 [] (.userError 7) rfl (by decide) rfl ⟨by decide, by decide⟩
    rfl (by decide) (by decide) (by decide)
  refine ⟨st', ?_, h2⟩
  rw [h1]
  rfl

/-- Counterexample to claim C4: with the code of
src/src/applyMiddleware.js, a middleware that calls the api dispatch
synchronously during its own construction does not fail — the construction
dispatch completes normally through the base store (the mutable reference
cell is initially bound to store.dispatch, line 40, not to a function that
throws), and the base reducer processes the action (state becomes 1). -/
theorem applyMiddleware_construction_counterexample :
    ((applyMiddlewareConstruct stepRed envNone storeEmpty [mwX]).2.all
      DResult.isOk) = true
    ∧ (applyMiddlewareConstruct stepRed envNone storeEmpty [mwX]).1.currentState
      = 1 := by
  constructor <;> rfl

/-- Claim C4 as amended: the enhancer exposes to each middleware an api
whose dispatch forwards to a mutable reference cell that is initially bound
to the base store's dispatch (not to a function failing with an
early-dispatch error), so a middleware dispatching synchronously during its
own construction dispatches through the base store, without the middleware
chain applied: the construction-time dispatch result is exactly the base
dispatch result. -/
theorem applyMiddleware_construction_forwards {S : Type} (red : Reducer S)
    (env : Nat → List LCmd) (st : StoreSt S) (mw : MW) (a : Action)
    (hd : mw.constructDispatches = [a]) :
    (applyMiddlewareConstruct red env st [mw]).2 = [dispatch red env st a] := by
  simp only [applyMiddlewareConstruct, hd]
  cases hres : dispatch red env st a with
  | ok st' tr ra => simp [runConstructionActs, hres, applyMiddlewareConstruct, DResult.isOk]
  | rejected e stx => simp [runConstructionActs, hres, DResult.isOk]
  | threw e stx tr => simp [runConstructionActs, hres, DResult.isOk]
  | fuelOut => simp [runConstructionActs, hres, DResult.isOk]

/-- Witness for the amended claim C4: the concrete middleware construction
produces exactly the base dispatch result of the INC action. -/
theorem applyMiddleware_construction_forwards_witness :
    (applyMiddlewareConstruct stepRed envNone storeEmpty [mwX]).2 =
      [dispatch stepRed envNone storeEmpty incAction] :=
  applyMiddleware_construction_forwards stepRed envNone storeEmpty mwX
    incAction rfl

end Redux
